import Mathlib

/-!
Shallow embedding of `brain_tumor_segmentation/modules/train/training.py`
(class `BrainSegmentation3DModel`).

Tensors of shape (batch, classes, D, H, W) are modelled as nested lists,
with the three spatial axes flattened into a single voxel list: every
operation in that file is either voxel-wise or reduces over all spatial
axes at once, so the flattening is faithful.  Floating-point values are
modelled as real numbers; the integer label volume of shape
(batch, 1, D, H, W) is modelled with its singleton channel axis elided.
NaN is modelled by `Option ℝ`, `none` playing the role of NaN.
-/

namespace BrainTumorSeg

/-- Flattened D×H×W voxel grid of one channel. -/
abbrev Voxels := List ℝ

/-- One sample: its list of per-class channels. -/
abbrev Sample := List Voxels

/-- A float tensor of shape (batch, classes, voxels). -/
abbrev TensorR := List Sample

/-- The integer label volume of one sample (singleton channel axis elided). -/
abbrev LabelVol := List ℤ

/-- An integer label tensor of shape (batch, voxels). -/
abbrev TensorZ := List LabelVol

/-- torch.sigmoid on one scalar. -/
noncomputable def sigmoid (x : ℝ) : ℝ := 1 / (1 + Real.exp (-x))

/-- torch.sigmoid applied element-wise to a tensor (training.py line 185). -/
noncomputable def sigmoidT (t : TensorR) : TensorR :=
  t.map (fun s => s.map (fun v => v.map sigmoid))

/-- monai.networks.one_hot: scatter the integer labels into num_classes
indicator channels (training.py line 186). -/
def oneHot (num_classes : ℕ) (t : TensorZ) : TensorR :=
  t.map (fun lbls =>
    (List.range num_classes).map (fun c =>
      lbls.map (fun v => if v = (c : ℤ) then (1 : ℝ) else 0)))

/-- The channel count `preds.size()[1]` (training.py line 184). -/
def numClasses (preds : TensorR) : ℕ :=
  match preds with
  | [] => 0
  | s :: _ => s.length

/-- Per-sample per-class Dice ratio of monai compute_meandice:
2·Σ(y·ŷ) / (Σy + Σŷ), guarded by `Σy > 0`; `none` models the NaN the
library produces when the class is absent from the ground truth. -/
noncomputable def diceChannel (p y : Voxels) : Option ℝ :=
  let intersection := (List.zipWith (fun a b => a * b) y p).sum
  let y_o := y.sum
  let y_pred_o := p.sum
  if 0 < y_o then some (2 * intersection / (y_o + y_pred_o)) else none

/-- monai ignore_background: drop channel 0 from every sample. -/
def ignore_background (t : TensorR) : TensorR := t.map List.tail

/-- monai.metrics.meandice.compute_meandice: the (batch, classes) matrix of
per-class Dice ratios, reducing over all spatial axes
(training.py lines 188-190). -/
noncomputable def compute_meandice (y_pred y : TensorR) (include_background : Bool) :
    List (List (Option ℝ)) :=
  let yp := if include_background then y_pred else ignore_background y_pred
  let yt := if include_background then y else ignore_background y
  List.zipWith (fun ps ys => List.zipWith diceChannel ps ys) yp yt

/-- torch.nan_to_num on one cell: NaN (`none`) becomes 0
(training.py line 191). -/
def nanToNum : Option ℝ → ℝ
  | none => 0
  | some x => x

/-- torch.mean over the flattened entries; the mean of an empty tensor is
NaN (training.py line 192). -/
noncomputable def meanList (l : List ℝ) : Option ℝ :=
  if l.isEmpty then none else some (l.sum / l.length)

/-- Static method `_calculate_dice` (training.py lines 182-195): channel
count from the prediction, sigmoid, one-hot target, per-class Dice matrix
without the background channel, NaN replacement, global mean. -/
noncomputable def calculate_dice (preds : TensorR) (target : TensorZ) : Option ℝ :=
  let num_classes := numClasses preds
  let predsS := sigmoidT preds
  let targetOH := oneHot num_classes target
  let dice_value := compute_meandice predsS targetOH false
  meanList ((dice_value.map (fun row => row.map nanToNum)).flatten)

/-- The stage of `_calculate_dice` downstream of the sigmoid: the same
pipeline applied to an already-activated probability tensor. -/
noncomputable def dice_from_probs (probs : TensorR) (target : TensorZ) : Option ℝ :=
  let targetOH := oneHot (numClasses probs) target
  let dice_value := compute_meandice probs targetOH false
  meanList ((dice_value.map (fun row => row.map nanToNum)).flatten)

/-- Modelled from the spec (refinement side of C1): the per-class Dice
ratio exactly as the spec words it, where the undefined case is the 0/0
ratio (empty intersection and empty union) rather than monai's
absent-ground-truth guard. -/
noncomputable def diceChannelSpec (p y : Voxels) : Option ℝ :=
  let intersection := (List.zipWith (fun a b => a * b) y p).sum
  let denominator := y.sum + p.sum
  if denominator = 0 then none else some (2 * intersection / denominator)

/-- Modelled from the spec (refinement side of C1): sigmoid on the logits,
one-hot expansion of the labels to the prediction's channel count, mean
Dice per class per sample excluding channel 0, NaN replaced by zero,
average over all remaining entries. -/
noncomputable def calculate_dice_spec (preds : TensorR) (target : TensorZ) : Option ℝ :=
  let probs := sigmoidT preds
  let targetOH := oneHot (numClasses preds) target
  let mat := List.zipWith (fun ps ys => List.zipWith diceChannelSpec ps ys)
    (ignore_background probs) (ignore_background targetOH)
  meanList ((mat.map (fun row => row.map nanToNum)).flatten)

theorem sigmoid_pos (x : ℝ) : 0 < sigmoid x := by
  have h : (0 : ℝ) < 1 + Real.exp (-x) := by positivity
  exact div_pos one_pos h

theorem sigmoid_lt_one (x : ℝ) : sigmoid x < 1 := by
  have h : (0 : ℝ) < 1 + Real.exp (-x) := by positivity
  rw [sigmoid, div_lt_one h]
  have := Real.exp_pos (-x)
  linarith

theorem sigmoid_zero : sigmoid 0 = 1 / 2 := by
  simp [sigmoid, Real.exp_zero]
  norm_num

theorem zipWith_congr_mem {α β γ : Type} (f g : α → β → γ) :
    ∀ (l₁ : List α) (l₂ : List β), (∀ a ∈ l₁, ∀ b ∈ l₂, f a b = g a b) →
      List.zipWith f l₁ l₂ = List.zipWith g l₁ l₂
  | [], _, _ => by simp
  | _ :: _, [], _ => by simp
  | a :: l₁, b :: l₂, h => by
    simp only [List.zipWith_cons_cons]
    refine congrArg₂ _ (h a (by simp) b (by simp)) ?_
    exact zipWith_congr_mem f g l₁ l₂ fun x hx y hy => h x (by simp [hx]) y (by simp [hy])

theorem all_zero_of_sum_eq_zero :
    ∀ (l : List ℝ), (∀ x ∈ l, 0 ≤ x) → l.sum = 0 → ∀ x ∈ l, x = 0
  | [], _, _ => by simp
  | a :: l, h0, h => by
    have ha : 0 ≤ a := h0 a (by simp)
    have hl : 0 ≤ l.sum := List.sum_nonneg fun x hx => h0 x (by simp [hx])
    have hsum : a + l.sum = 0 := by simpa using h
    have ha0 : a = 0 := by linarith
    have hl0 : l.sum = 0 := by linarith
    intro x hx
    rcases List.mem_cons.mp hx with rfl | hx
    · exact ha0
    · exact all_zero_of_sum_eq_zero l (fun x hx => h0 x (by simp [hx])) hl0 x hx

theorem sum_zipWith_mul_eq_zero :
    ∀ (y p : List ℝ), (∀ b ∈ y, b = 0) →
      (List.zipWith (fun a b => a * b) y p).sum = 0
  | [], _, _ => by simp
  | _ :: _, [], _ => by simp
  | a :: y, b :: p, h => by
    have ha : a = 0 := h a (by simp)
    simp only [List.zipWith_cons_cons, List.sum_cons, ha, zero_mul, zero_add]
    exact sum_zipWith_mul_eq_zero y p fun x hx => h x (by simp [hx])

/-- On a nonnegative prediction channel and a 0/1 ground-truth channel,
monai's absent-ground-truth NaN guard and the spec's 0/0 NaN convention
agree once NaN is replaced by zero. -/
theorem nanToNum_diceChannel_eq_spec (p y : Voxels)
    (hp : ∀ x ∈ p, 0 ≤ x) (hy : ∀ b ∈ y, b = 0 ∨ b = 1) :
    nanToNum (diceChannel p y) = nanToNum (diceChannelSpec p y) := by
  have hps : 0 ≤ p.sum := List.sum_nonneg hp
  by_cases hpos : 0 < y.sum
  · have hden : ¬ (y.sum + p.sum = 0) := by linarith
    simp [diceChannel, diceChannelSpec, hpos, hden]
  · have hynn : ∀ b ∈ y, 0 ≤ b := by
      intro b hb
      rcases hy b hb with h | h <;> simp [h]
    have hys : 0 ≤ y.sum := List.sum_nonneg hynn
    have hy0 : y.sum = 0 := le_antisymm (not_lt.mp hpos) hys
    have hall : ∀ b ∈ y, b = 0 := all_zero_of_sum_eq_zero y hynn hy0
    have hint : (List.zipWith (fun a b => a * b) y p).sum = 0 :=
      sum_zipWith_mul_eq_zero y p hall
    by_cases hp0 : p.sum = 0
    · simp [diceChannel, diceChannelSpec, hpos, hy0, hp0]
    · have hden : ¬ (y.sum + p.sum = 0) := by
        rw [hy0, zero_add]; exact hp0
      simp [diceChannel, diceChannelSpec, hpos, hden, hint, nanToNum]

theorem mem_sigmoidT_entries {preds : TensorR} {ps : Sample}
    (h : ps ∈ ignore_background (sigmoidT preds)) :
    ∀ p ∈ ps, ∀ x ∈ p, 0 ≤ x := by
  simp only [ignore_background, sigmoidT, List.map_map, List.mem_map,
    Function.comp] at h
  obtain ⟨s, _, rfl⟩ := h
  intro p hp x hx
  have hp' : p ∈ (s.map (fun v => v.map sigmoid)) := List.mem_of_mem_tail hp
  obtain ⟨v, _, rfl⟩ := List.mem_map.mp hp'
  obtain ⟨a, _, rfl⟩ := List.mem_map.mp hx
  exact (sigmoid_pos a).le

theorem mem_oneHot_entries {nc : ℕ} {target : TensorZ} {ys : Sample}
    (h : ys ∈ ignore_background (oneHot nc target)) :
    ∀ y ∈ ys, ∀ b ∈ y, b = 0 ∨ b = 1 := by
  simp only [ignore_background, oneHot, List.map_map, List.mem_map,
    Function.comp] at h
  obtain ⟨lbls, _, rfl⟩ := h
  intro y hy b hb
  have hy' : y ∈ ((List.range nc).map
      (fun c : ℕ => lbls.map (fun v => if v = (c : ℤ) then (1 : ℝ) else 0))) :=
    List.mem_of_mem_tail hy
  obtain ⟨c, _, rfl⟩ := List.mem_map.mp hy'
  obtain ⟨v, _, rfl⟩ := List.mem_map.mp hb
  by_cases hv : v = (c : ℤ) <;> simp [hv]

/-- C1: `_calculate_dice` computes exactly the pipeline the spec
describes — sigmoid on the logits, one-hot expansion of the labels to the
prediction's channel count, mean Dice per class per sample excluding the
background channel, NaN replaced by zero, average over all remaining
class/sample entries. -/
theorem calculate_dice_matches_spec (preds : TensorR) (target : TensorZ) :
    calculate_dice preds target = calculate_dice_spec preds target := by
  unfold calculate_dice calculate_dice_spec compute_meandice
  simp only [Bool.false_eq_true, if_false]
  congr 1
  congr 1
  rw [List.map_zipWith, List.map_zipWith]
  apply zipWith_congr_mem
  intro ps hps ys hys
  rw [List.map_zipWith, List.map_zipWith]
  apply zipWith_congr_mem
  intro p hp y hy
  exact nanToNum_diceChannel_eq_spec p y
    (mem_sigmoidT_entries hps p hp) (mem_oneHot_entries hys y hy)

/-- Replace channel 0 of every sample of a tensor by an arbitrary
function of it, leaving all other channels and the channel count intact. -/
def mapChannel0 (g : Voxels → Voxels) (t : TensorR) : TensorR :=
  t.map (fun s =>
    match s with
    | [] => []
    | c0 :: rest => g c0 :: rest)

/-- C3: the mean returned by `_calculate_dice` is computed only over the
foreground channels — the value is invariant under any alteration of the
background channel (index 0) of the prediction, whatever its overlap. -/
theorem dice_ignores_background_channel (g : Voxels → Voxels)
    (preds : TensorR) (target : TensorZ) :
    calculate_dice (mapChannel0 g preds) target = calculate_dice preds target := by
  have hnc : numClasses (mapChannel0 g preds) = numClasses preds := by
    cases preds with
    | nil => rfl
    | cons s rest => cases s <;> rfl
  have hib : ignore_background (sigmoidT (mapChannel0 g preds))
      = ignore_background (sigmoidT preds) := by
    simp only [ignore_background, sigmoidT, mapChannel0, List.map_map]
    apply List.map_congr_left
    intro s _
    cases s <;> rfl
  unfold calculate_dice compute_meandice
  simp only [Bool.false_eq_true, if_false, hnc, hib]

theorem sum_of_all_ones :
    ∀ (l : List ℝ), (∀ x ∈ l, x = 1) → l.sum = (l.length : ℝ)
  | [], _ => by simp
  | a :: l, h => by
    have ha : a = 1 := h a (by simp)
    have ih := sum_of_all_ones l (fun x hx => h x (by simp [hx]))
    simp [ha, ih]
    ring

theorem meanList_of_all_ones (l : List ℝ) (h : ∀ x ∈ l, x = 1) (hne : l ≠ []) :
    meanList l = some 1 := by
  have hlz : l.length ≠ 0 := fun h0 => hne (List.length_eq_zero.mp h0)
  have hlen : (l.length : ℝ) ≠ 0 := Nat.cast_ne_zero.mpr hlz
  have hemp : l.isEmpty = false := by
    cases l with
    | nil => exact absurd rfl hne
    | cons a l => rfl
  rw [meanList, hemp]
  simp [sum_of_all_ones l h, div_self hlen]

theorem diceChannel_self_eq_one (y : Voxels) (h01 : ∀ b ∈ y, b = 0 ∨ b = 1)
    (h1 : (1 : ℝ) ∈ y) : diceChannel y y = some 1 := by
  have hnn : ∀ b ∈ y, 0 ≤ b := by
    intro b hb
    rcases h01 b hb with h | h <;> simp [h]
  have hsum : (1 : ℝ) ≤ y.sum := List.single_le_sum hnn 1 h1
  have hpos : 0 < y.sum := by linarith
  have hint : (List.zipWith (fun a b => a * b) y y).sum = y.sum := by
    rw [List.zipWith_same]
    congr 1
    conv_rhs => rw [← List.map_id y]
    apply List.map_congr_left
    intro b hb
    rcases h01 b hb with h | h <;> simp [h]
  have hne : y.sum + y.sum ≠ 0 := by linarith
  simp only [diceChannel, hint, if_pos hpos]
  congr 1
  rw [div_eq_one_iff_eq hne]
  ring

theorem mem_tail_range {nc c : ℕ} (h : c ∈ (List.range nc).tail) :
    1 ≤ c ∧ c < nc := by
  cases nc with
  | zero => simp [List.range_zero] at h
  | succ k =>
    rw [List.range_succ_eq_map] at h
    simp only [List.tail_cons, List.mem_map] at h
    obtain ⟨i, hi, rfl⟩ := h
    exact ⟨Nat.succ_le_succ (Nat.zero_le i), Nat.succ_lt_succ (List.mem_range.mp hi)⟩

/-- C4 (amended): on the stage of `_calculate_dice` downstream of the
sigmoid, a probability tensor that equals the one-hot target exactly
yields mean Dice 1.0 over the foreground classes, provided the batch is
nonempty, there is at least one foreground class, and every foreground
class occurs in every sample of the target. -/
theorem dice_perfect_probs_eq_one (nc : ℕ) (target : TensorZ)
    (htne : target ≠ []) (h2 : 2 ≤ nc)
    (hpres : ∀ s ∈ target, ∀ c : ℕ, 1 ≤ c → c < nc → (c : ℤ) ∈ s) :
    dice_from_probs (oneHot nc target) target = some 1 := by
  have hnc : numClasses (oneHot nc target) = nc := by
    cases target with
    | nil => exact absurd rfl htne
    | cons s rest => simp [oneHot, numClasses]
  unfold dice_from_probs compute_meandice
  rw [hnc]
  simp only [Bool.false_eq_true, if_false]
  rw [List.zipWith_same, List.map_map]
  apply meanList_of_all_ones
  · intro x hx
    rw [List.mem_flatten] at hx
    obtain ⟨row, hrow, hxrow⟩ := hx
    rw [List.mem_map] at hrow
    obtain ⟨ps, hps, rfl⟩ := hrow
    simp only [Function.comp] at hxrow
    rw [List.zipWith_same, List.map_map, List.mem_map] at hxrow
    obtain ⟨y, hy, rfl⟩ := hxrow
    simp only [ignore_background, oneHot, List.map_map, List.mem_map,
      Function.comp] at hps
    obtain ⟨s, hs, rfl⟩ := hps
    rw [← List.map_tail, List.mem_map] at hy
    obtain ⟨c, hc, rfl⟩ := hy
    obtain ⟨hc1, hcn⟩ := mem_tail_range hc
    have h01 : ∀ b ∈ s.map (fun v => if v = (c : ℤ) then (1 : ℝ) else 0),
        b = 0 ∨ b = 1 := by
      intro b hb
      obtain ⟨v, _, rfl⟩ := List.mem_map.mp hb
      by_cases hv : v = (c : ℤ) <;> simp [hv]
    have h1 : (1 : ℝ) ∈ s.map (fun v => if v = (c : ℤ) then (1 : ℝ) else 0) :=
      List.mem_map.mpr ⟨(c : ℤ), hpres s hs c hc1 hcn, by simp⟩
    simp only [Function.comp]
    rw [diceChannel_self_eq_one _ h01 h1]
    rfl
  · cases target with
    | nil => exact absurd rfl htne
    | cons s rest =>
      have hc1 : (1 : ℕ) ∈ (List.range nc).tail := by
        obtain ⟨k, rfl⟩ : ∃ k, nc = k + 1 := ⟨nc - 1, by omega⟩
        rw [List.range_succ_eq_map]
        simp only [List.tail_cons, List.mem_map]
        refine ⟨0, ?_, rfl⟩
        rw [List.mem_range]
        omega
      have hmem0 : ((List.range nc).map
            (fun c : ℕ => s.map (fun v => if v = (c : ℤ) then (1 : ℝ) else 0))).tail
          ∈ ignore_background (oneHot nc (s :: rest)) := by
        simp [ignore_background, oneHot]
      apply List.ne_nil_of_mem
        (a := nanToNum (diceChannel
          (s.map (fun v => if v = (1 : ℤ) then (1 : ℝ) else 0))
          (s.map (fun v => if v = (1 : ℤ) then (1 : ℝ) else 0))))
      rw [List.mem_flatten]
      refine ⟨_, List.mem_map.mpr ⟨_, hmem0, rfl⟩, ?_⟩
      simp only [Function.comp]
      rw [List.zipWith_same, List.map_map, List.mem_map]
      refine ⟨s.map (fun v => if v = (1 : ℤ) then (1 : ℝ) else 0), ?_, rfl⟩
      rw [← List.map_tail, List.mem_map]
      exact ⟨1, hc1, rfl⟩

/-- C4 (counterexample): a prediction that equals the one-hot target
exactly does not make `_calculate_dice` return 1.0, because the function
first applies a sigmoid to its input: with logits `[[[0],[1]]]` equal to
the one-hot form of target `[[1]]`, the returned value is
2·σ(1)/(1+σ(1)) < 1. -/
theorem dice_perfect_logits_ne_one :
    calculate_dice [[[(0 : ℝ)], [(1 : ℝ)]]] [[(1 : ℤ)]] ≠ some 1 := by
  have h0 : 0 < sigmoid 1 := sigmoid_pos 1
  have h1 : sigmoid 1 < 1 := sigmoid_lt_one 1
  have hval : calculate_dice [[[(0 : ℝ)], [(1 : ℝ)]]] [[(1 : ℤ)]]
      = some (2 * (1 * sigmoid 1) / (1 + sigmoid 1)) := by
    unfold calculate_dice compute_meandice numClasses sigmoidT oneHot
      ignore_background meanList
    simp [List.range_succ, diceChannel, nanToNum, h0]
  rw [hval]
  intro hcontra
  have heq : 2 * (1 * sigmoid 1) / (1 + sigmoid 1) = 1 := Option.some.inj hcontra
  have hden : (1 : ℝ) + sigmoid 1 ≠ 0 := by linarith
  rw [div_eq_one_iff_eq hden, one_mul] at heq
  linarith

/-- Witness for the amended C4 theorem at the concrete target `[[1]]`
with two classes. -/
theorem dice_perfect_probs_eq_one_witness :
    ([[(1 : ℤ)]] : TensorZ) ≠ [] ∧ 2 ≤ 2 ∧
      dice_from_probs (oneHot 2 [[(1 : ℤ)]]) [[(1 : ℤ)]] = some 1 := by
  refine ⟨by simp, by norm_num, ?_⟩
  apply dice_perfect_probs_eq_one 2 [[(1 : ℤ)]] (by simp) (by norm_num)
  intro s hs c h1 h2
  have hc : c = 1 := by omega
  subst hc
  simp only [List.mem_singleton] at hs
  subst hs
  simp

/-- The sigmoid stage factors out of `_calculate_dice`: the function is
the post-sigmoid Dice stage applied to the activated prediction. -/
theorem calculate_dice_eq_from_probs (preds : TensorR) (target : TensorZ) :
    calculate_dice preds target = dice_from_probs (sigmoidT preds) target := by
  have h : numClasses (sigmoidT preds) = numClasses preds := by
    cases preds with
    | nil => rfl
    | cons s rest => simp [sigmoidT, numClasses]
  unfold calculate_dice dice_from_probs
  rw [h]

/-- C2: a foreground class entirely absent from both the (post-sigmoid)
prediction and the one-hot target gives a 0/0 Dice ratio, modelled as NaN
(`none`); the Dice stage of `_calculate_dice` turns exactly that entry
into zero — it stays in the averaged matrix, neither excluded nor set
to 1 — and the returned value is never NaN (`isSome`). -/
theorem dice_absent_class_is_zero (probs : TensorR) (target : TensorZ) (b c : ℕ)
    (hb : b < probs.length) (hbt : b < target.length)
    (hc1 : 1 ≤ c) (hcn : c < numClasses probs)
    (hlen : (probs.getD b []).length = numClasses probs)
    (habsp : ((probs.getD b []).getD c []).sum = 0)
    (habst : ∀ v ∈ target.getD b [], v ≠ (c : ℤ)) :
    ((compute_meandice probs (oneHot (numClasses probs) target) false)[b]?.bind
        (fun row => row[c - 1]?)) = some none ∧
    (((compute_meandice probs (oneHot (numClasses probs) target) false).map
        (fun row => row.map nanToNum))[b]?.bind (fun row => row[c - 1]?))
      = some (0 : ℝ) ∧
    (dice_from_probs probs target).isSome = true := by
  have hpb : probs[b]? = some (probs.getD b []) := by
    rw [List.getElem?_eq_getElem hb, List.getD_eq_getElem _ _ hb]
  have htb : target[b]? = some (target.getD b []) := by
    rw [List.getElem?_eq_getElem hbt, List.getD_eq_getElem _ _ hbt]
  have hc' : c < (probs.getD b []).length := hlen ▸ hcn
  have hpc : (probs.getD b [])[c]? = some ((probs.getD b []).getD c []) := by
    rw [List.getElem?_eq_getElem hc', List.getD_eq_getElem _ _ hc']
  have hcc : c - 1 + 1 = c := by omega
  have hy0 : ((target.getD b []).map
      (fun v => if v = (c : ℤ) then (1 : ℝ) else 0)).sum = 0 := by
    apply List.sum_eq_zero
    intro x hx
    obtain ⟨v, hv, rfl⟩ := List.mem_map.mp hx
    rw [if_neg (habst v hv)]
  have hdc : diceChannel ((probs.getD b []).getD c [])
      ((target.getD b []).map (fun v => if v = (c : ℤ) then (1 : ℝ) else 0))
      = none := by
    simp only [diceChannel]
    rw [if_neg]
    rw [hy0]
    exact lt_irrefl 0
  have hmat : (compute_meandice probs (oneHot (numClasses probs) target) false)[b]?
      = some (List.zipWith diceChannel (probs.getD b []).tail
          (((List.range (numClasses probs)).map
            (fun cc : ℕ => (target.getD b []).map
              (fun v => if v = (cc : ℤ) then (1 : ℝ) else 0))).tail)) := by
    unfold compute_meandice
    simp only [Bool.false_eq_true, if_false, ignore_background, oneHot,
      List.getElem?_zipWith, List.getElem?_map, hpb, htb]
    rfl
  have hrow : (List.zipWith diceChannel (probs.getD b []).tail
      (((List.range (numClasses probs)).map
        (fun cc : ℕ => (target.getD b []).map
          (fun v => if v = (cc : ℤ) then (1 : ℝ) else 0))).tail))[c - 1]?
      = some (none : Option ℝ) := by
    rw [List.getElem?_zipWith, List.getElem?_tail, List.getElem?_tail, hcc,
      hpc, List.getElem?_map, List.getElem?_range hcn]
    show some (diceChannel ((probs.getD b []).getD c [])
      ((target.getD b []).map (fun v => if v = (c : ℤ) then (1 : ℝ) else 0)))
      = some (none : Option ℝ)
    rw [hdc]
  refine ⟨?_, ?_, ?_⟩
  · rw [hmat]
    rw [Option.some_bind]
    exact hrow
  · rw [List.getElem?_map, hmat]
    rw [Option.map_some', Option.some_bind, List.getElem?_map, hrow]
    rfl
  · have hzero_mem : (0 : ℝ) ∈
        ((compute_meandice probs (oneHot (numClasses probs) target) false).map
          (fun row => row.map nanToNum)).flatten := by
      rw [List.mem_flatten]
      refine ⟨(List.zipWith diceChannel (probs.getD b []).tail
          (((List.range (numClasses probs)).map
            (fun cc : ℕ => (target.getD b []).map
              (fun v => if v = (cc : ℤ) then (1 : ℝ) else 0))).tail)).map nanToNum,
        ?_, ?_⟩
      · apply List.getElem?_mem (n := b)
        rw [List.getElem?_map, hmat]
        rfl
      · apply List.getElem?_mem (n := c - 1)
        rw [List.getElem?_map, hrow]
        rfl
    have hne := List.ne_nil_of_mem hzero_mem
    unfold dice_from_probs meanList
    rw [if_neg (by simpa [List.isEmpty_eq_false] using hne)]
    exact Option.isSome_some

/-- Witness for C2 at a concrete input: two classes, one voxel, class 1
absent from both the probability tensor and the target. -/
theorem dice_absent_class_is_zero_witness :
    ((compute_meandice [[[(1 : ℝ)], [(0 : ℝ)]]] (oneHot 2 [[(0 : ℤ)]]) false)[0]?.bind
        (fun row => row[0]?)) = some none ∧
    (((compute_meandice [[[(1 : ℝ)], [(0 : ℝ)]]] (oneHot 2 [[(0 : ℤ)]]) false).map
        (fun row => row.map nanToNum))[0]?.bind (fun row => row[0]?)) = some (0 : ℝ) ∧
    (dice_from_probs [[[(1 : ℝ)], [(0 : ℝ)]]] [[(0 : ℤ)]]).isSome = true :=
  dice_absent_class_is_zero [[[(1 : ℝ)], [(0 : ℝ)]]] [[(0 : ℤ)]] 0 1
    (by norm_num) (by norm_num) le_rfl (by norm_num [numClasses])
    (by norm_num [numClasses]) (by simp) (by decide)

/-- A neural network module: a function from a batched image tensor to a
batched logit tensor (`self.model`, the DenseVNet, is an external
collaborator of the module under study). -/
abbrev Model := TensorR → TensorR

/-- A loss function on a prediction and an integer label tensor
(`self.loss`, the monai DiceLoss, is an external collaborator). -/
abbrev LossFn := TensorR → TensorZ → ℝ

/-- A value stored in a batch dictionary: an image tensor or a mask. -/
inductive BVal
  | img (t : TensorR)
  | msk (t : TensorZ)

/-- A batch dictionary keyed by strings. -/
abbrev Batch := List (String × BVal)

/-- `self.img_key` (training.py line 43). -/
def img_key : String := "image"

/-- `self.lbl_key` (training.py line 44). -/
def lbl_key : String := "mask"

/-- A value of the record a step returns. -/
inductive RVal
  | lossVal (x : ℝ)
  | predVal (t : TensorR)
  | labelVal (t : TensorZ)

/-- The observable outcome of a step: the returned record and the
(name, value) pairs passed to `self.log`, in call order. -/
structure StepOutput where
  record : List (String × RVal)
  logs : List (String × Option ℝ)

/-- The `'train'` logging name piece of `training_step`. -/
def train_pfx : String := "train"

/-- The `'val'` logging name piece of `validation_step`. -/
def val_pfx : String := "val"

/-- `_log_metrics` (training.py lines 169-180): compute the Dice metric
on the predictions and the target and log it as `f'{prefix}_dice'`. -/
noncomputable def log_metrics (preds : TensorR) (target : TensorZ) (pfx : String) :
    List (String × Option ℝ) :=
  [(pfx ++ "_dice", calculate_dice preds target)]

/-- `training_step` (training.py lines 81-99): read image and mask from
the batch dictionary, run the model on the raw image, compute the loss on
the result and the label, log `train_loss` and the Dice metric, return
the loss/pred/label record.  `none` models the KeyError raised on a batch
missing one of the two keys. -/
noncomputable def training_step (model : Model) (lossFn : LossFn) (batch : Batch) :
    Option StepOutput :=
  match batch.lookup img_key, batch.lookup lbl_key with
  | some (BVal.img image), some (BVal.msk label) =>
      let result := model image
      let loss := lossFn result label
      some { record := [("loss", RVal.lossVal loss), ("pred", RVal.predVal result),
               ("label", RVal.labelVal label)],
             logs := ("train_loss", some loss) :: log_metrics result label train_pfx }
  | _, _ => none

/-- `validation_step` (training.py lines 101-119): identical to
`training_step` except that it logs `val_loss` and uses the `val`
logging name piece. -/
noncomputable def validation_step (model : Model) (lossFn : LossFn) (batch : Batch) :
    Option StepOutput :=
  match batch.lookup img_key, batch.lookup lbl_key with
  | some (BVal.img image), some (BVal.msk label) =>
      let result := model image
      let loss := lossFn result label
      some { record := [("loss", RVal.lossVal loss), ("pred", RVal.predVal result),
               ("label", RVal.labelVal label)],
             logs := ("val_loss", some loss) :: log_metrics result label val_pfx }
  | _, _ => none

/-- Rename a logging name that starts with the `val` piece to the same
name with the `train` piece. -/
def to_train_name (n : String) : String :=
  if n.take 3 = val_pfx then train_pfx ++ n.drop 3 else n

/-- C5: `training_step` and `validation_step` perform the identical
computation — same model call, same loss, same Dice metric on the same
inputs, same returned record — and their logged metrics differ only in
the `train` / `val` name piece. -/
theorem steps_agree_up_to_log_names (model : Model) (lossFn : LossFn) (batch : Batch) :
    training_step model lossFn batch
      = (validation_step model lossFn batch).map
          (fun o => ⟨o.record, o.logs.map (fun p => (to_train_name p.1, p.2))⟩) := by
  unfold training_step validation_step
  cases h1 : batch.lookup img_key with
  | none => rfl
  | some v =>
    cases v with
    | msk t =>
      cases h2 : batch.lookup lbl_key with
      | none => rfl
      | some w => cases w <;> rfl
    | img image =>
      cases h2 : batch.lookup lbl_key with
      | none => rfl
      | some w =>
        cases w with
        | img t => rfl
        | msk label =>
          simp only [Option.map_some', log_metrics]
          refine congrArg some ?_
          refine congrArg₂ StepOutput.mk rfl ?_
          have hl : to_train_name "val_loss" = "train_loss" := by decide
          have hd : to_train_name (val_pfx ++ "_dice") = train_pfx ++ "_dice" := by decide
          simp [hl, hd]

/-- C6 (amended): on a batch holding the two fixed keys, both steps
return a record with exactly the keys loss, pred and label, where loss is
the loss of the raw model output against the batch mask, pred is the raw
model output, and label is the batch mask. -/
theorem step_record_contents (model : Model) (lossFn : LossFn) (batch : Batch)
    (image : TensorR) (mask : TensorZ)
    (h1 : batch.lookup img_key = some (BVal.img image))
    (h2 : batch.lookup lbl_key = some (BVal.msk mask)) :
    (training_step model lossFn batch).map StepOutput.record
      = some [("loss", RVal.lossVal (lossFn (model image) mask)),
              ("pred", RVal.predVal (model image)),
              ("label", RVal.labelVal mask)] ∧
    (validation_step model lossFn batch).map StepOutput.record
      = some [("loss", RVal.lossVal (lossFn (model image) mask)),
              ("pred", RVal.predVal (model image)),
              ("label", RVal.labelVal mask)] := by
  unfold training_step validation_step
  rw [h1, h2]
  exact ⟨rfl, rfl⟩

/-- Witness for the amended C6 theorem on a concrete batch. -/
theorem step_record_contents_witness :
    (training_step (fun t => t) (fun _ _ => (0 : ℝ))
        [(img_key, BVal.img []), (lbl_key, BVal.msk [])]).map StepOutput.record
      = some [("loss", RVal.lossVal 0), ("pred", RVal.predVal []),
              ("label", RVal.labelVal [])] ∧
    (validation_step (fun t => t) (fun _ _ => (0 : ℝ))
        [(img_key, BVal.img []), (lbl_key, BVal.msk [])]).map StepOutput.record
      = some [("loss", RVal.lossVal 0), ("pred", RVal.predVal []),
              ("label", RVal.labelVal [])] :=
  step_record_contents (fun t => t) (fun _ _ => 0)
    [(img_key, BVal.img []), (lbl_key, BVal.msk [])] [] [] rfl rfl

/-- C6 (counterexample): the record returned by the steps uses the key
`pred`, not `prediction` — on a concrete batch the key list is exactly
`[loss, pred, label]`, which differs from `[loss, prediction, label]`. -/
theorem step_record_keys_counterexample :
    (training_step (fun t => t) (fun _ _ => (0 : ℝ))
        [(img_key, BVal.img []), (lbl_key, BVal.msk [])]).map
      (fun o => o.record.map Prod.fst) = some ["loss", "pred", "label"] ∧
    ¬ ((training_step (fun t => t) (fun _ _ => (0 : ℝ))
        [(img_key, BVal.img []), (lbl_key, BVal.msk [])]).map
      (fun o => o.record.map Prod.fst) = some ["loss", "prediction", "label"]) := by
  constructor
  · rfl
  · intro hcontra
    have h : (["loss", "pred", "label"] : List String)
        = ["loss", "prediction", "label"] := Option.some.inj hcontra
    exact absurd h (by decide)

/-- The key under which both steps store the raw model output. -/
def pred_key : String := "pred"

/-- `forward` (training.py lines 73-79): add a leading batch dimension to
the image, run the model, apply a sigmoid to the output.  The `.float()`
cast is the identity in the real-valued model. -/
noncomputable def forward (model : Model) (image : Sample) : TensorR :=
  sigmoidT (model [image])

/-- C10: `forward` is not the function applied inside the step functions:
the steps store the raw (pre-sigmoid) model output of the batch image
under the `pred` key, while `forward` batches its input and applies a
sigmoid, so on the identity model and a zero image the two disagree. -/
theorem forward_vs_step_pred (model : Model) (lossFn : LossFn) (batch : Batch)
    (image : TensorR) (mask : TensorZ)
    (h1 : batch.lookup img_key = some (BVal.img image))
    (h2 : batch.lookup lbl_key = some (BVal.msk mask)) :
    ((training_step model lossFn batch).bind
        (fun o => o.record.lookup pred_key)) = some (RVal.predVal (model image)) ∧
    ((validation_step model lossFn batch).bind
        (fun o => o.record.lookup pred_key)) = some (RVal.predVal (model image)) ∧
    forward (fun t => t) [[(0 : ℝ)]] ≠ [[[(0 : ℝ)]]] := by
  refine ⟨?_, ?_, ?_⟩
  · unfold training_step
    rw [h1, h2]
    rfl
  · unfold validation_step
    rw [h1, h2]
    rfl
  · intro h
    unfold forward sigmoidT at h
    simp only [List.map_cons, List.map_nil, List.cons.injEq, and_true] at h
    have h0 : sigmoid 0 = 0 := h
    rw [sigmoid_zero] at h0
    norm_num at h0

/-- Witness for the C10 theorem on a concrete batch. -/
theorem forward_vs_step_pred_witness :
    ((training_step (fun t => t) (fun _ _ => (0 : ℝ))
        [(img_key, BVal.img []), (lbl_key, BVal.msk [])]).bind
      (fun o => o.record.lookup pred_key)) = some (RVal.predVal []) ∧
    ((validation_step (fun t => t) (fun _ _ => (0 : ℝ))
        [(img_key, BVal.img []), (lbl_key, BVal.msk [])]).bind
      (fun o => o.record.lookup pred_key)) = some (RVal.predVal []) ∧
    forward (fun t => t) [[(0 : ℝ)]] ≠ [[[(0 : ℝ)]]] :=
  forward_vs_step_pred (fun t => t) (fun _ _ => 0)
    [(img_key, BVal.img []), (lbl_key, BVal.msk [])] [] [] rfl rfl

/-- The Adam optimizer record: `torch.optim.Adam` is an external
collaborator, so only the learning rate it is constructed with is
modelled (training.py line 151). -/
structure Adam where
  lr : ℝ

/-- The `torch.optim.lr_scheduler.ReduceLROnPlateau` construction record
(training.py lines 153-160). -/
structure ReduceLROnPlateau where
  factor : ℝ
  patience : ℕ
  mode : String
  threshold : ℝ
  verbose : Bool

/-- The `lr_scheduler` entry of the configuration (training.py line 164). -/
structure LRSchedulerCfg where
  scheduler : ReduceLROnPlateau
  monitor : String

/-- The configuration dictionary returned by `configure_optimizers`. -/
structure OptimConfiguration where
  optimizer : Adam
  lr_scheduler : LRSchedulerCfg

/-- `configure_optimizers` (training.py lines 150-167). -/
def configure_optimizers (learning_rate : ℝ) : OptimConfiguration :=
  { optimizer := { lr := learning_rate },
    lr_scheduler :=
      { scheduler :=
          { factor := 0.5, patience := 5, mode := "min", threshold := 0.001,
            verbose := true },
        monitor := "val_loss" } }

/-- C7: `configure_optimizers` always returns the configuration record
naming an Adam optimizer at the constructed learning rate together with a
plateau scheduler of factor 0.5, patience 5 epochs, mode min and
threshold 0.001 that monitors `val_loss`. -/
theorem configure_optimizers_wiring (learning_rate : ℝ) :
    (configure_optimizers learning_rate).optimizer.lr = learning_rate ∧
    (configure_optimizers learning_rate).lr_scheduler.scheduler.factor = 0.5 ∧
    (configure_optimizers learning_rate).lr_scheduler.scheduler.patience = 5 ∧
    (configure_optimizers learning_rate).lr_scheduler.scheduler.mode = "min" ∧
    (configure_optimizers learning_rate).lr_scheduler.scheduler.threshold = 0.001 ∧
    (configure_optimizers learning_rate).lr_scheduler.monitor = "val_loss" :=
  ⟨rfl, rfl, rfl, rfl, rfl, rfl⟩

/-- Modelled from the spec: the label remapping performed by the load
transform pipeline of `get_load_transforms` (in
brain_tumor_segmentation/modules/data/utils.py, which is not among the
sources under study) — each original label value is replaced by the
target value at the same position and any other value is kept. -/
def remap_label (orig_labels target_labels : List ℤ) (v : ℤ) : ℤ :=
  match (List.zip orig_labels target_labels).find? (fun p => p.1 == v) with
  | some p => p.2
  | none => v

/-- The mask part of the load transform as constructed in `__init__`
(training.py lines 56-62): original labels [1, 2, 4], target labels
[1, 2, 3]. -/
def load_transform_mask (mask : LabelVol) : LabelVol :=
  mask.map (remap_label [1, 2, 4] [1, 2, 3])

/-- C8: a label volume with values drawn from {1, 2, 4} loads to a mask
whose values lie in {1, 2, 3}, with 1 ↦ 1, 2 ↦ 2 and 4 ↦ 3. -/
theorem load_transform_mask_remaps (mask : LabelVol)
    (h : ∀ v ∈ mask, v = 1 ∨ v = 2 ∨ v = 4) :
    (∀ w ∈ load_transform_mask mask, w = 1 ∨ w = 2 ∨ w = 3) ∧
    load_transform_mask mask = mask.map (fun v => if v = 4 then 3 else v) := by
  constructor
  · intro w hw
    obtain ⟨v, hv, rfl⟩ := List.mem_map.mp hw
    rcases h v hv with rfl | rfl | rfl
    · exact Or.inl rfl
    · exact Or.inr (Or.inl rfl)
    · exact Or.inr (Or.inr rfl)
  · apply List.map_congr_left
    intro v hv
    rcases h v hv with rfl | rfl | rfl <;> rfl

/-- Witness for C8 on the concrete volume [1, 2, 4]. -/
theorem load_transform_mask_remaps_witness :
    (∀ v ∈ ([1, 2, 4] : LabelVol), v = 1 ∨ v = 2 ∨ v = 4) ∧
    ((∀ w ∈ load_transform_mask [1, 2, 4], w = 1 ∨ w = 2 ∨ w = 3) ∧
      load_transform_mask [1, 2, 4]
        = ([1, 2, 4] : LabelVol).map (fun v => if v = 4 then 3 else v)) :=
  ⟨by decide, load_transform_mask_remaps [1, 2, 4] (by decide)⟩

/-- An (image path, mask path) pair list as returned by the external
path resolver. -/
abbrev PathPairs := List (String × String)

/-- Modelled from the spec: `BrainSegDataset` (external to the sources
under study) records the path pairs and the load transforms it is
constructed from. -/
structure BrainSegDataset (T : Type) where
  image_mask_paths : PathPairs
  load_transforms : T

/-- Modelled from the spec: the data-loader factory `create_data_loader`
(external to the sources under study) records the dataset and loader
options it is given. -/
structure DataLoaderCfg (T : Type) where
  dataset : BrainSegDataset T
  batch_size : ℕ
  shuffle : Bool
  num_workers : ℕ

/-- Modelled from the spec: `create_data_loader` as the record
constructor of the loader configuration. -/
def create_data_loader {T : Type} (dataset : BrainSegDataset T)
    (batch_size : ℕ) (shuffle : Bool) (num_workers : ℕ) : DataLoaderCfg T :=
  { dataset := dataset, batch_size := batch_size, shuffle := shuffle,
    num_workers := num_workers }

/-- The per-run state that `__init__` stores for the data plumbing
(training.py lines 46-66): the resolved train/validation path lists, the
load transform, the batch size and the worker count.  The load transform
is kept abstract (type `T`). -/
structure ModuleState (T : Type) where
  train_paths : PathPairs
  val_paths : PathPairs
  load_transform : T
  batch_size : ℕ
  num_processes : ℕ

/-- `__init__` (training.py lines 46-66) restricted to the data plumbing:
the external `get_train_val_paths` resolver is modelled as an arbitrary
function of the `shuffle_dataset` flag, its two results are stored, and
the flag itself is not stored. -/
def init_state {T : Type} (resolver : Bool → PathPairs × PathPairs)
    (shuffle_dataset : Bool) (load_transform : T)
    (batch_size num_processes : ℕ) : ModuleState T :=
  { train_paths := (resolver shuffle_dataset).1,
    val_paths := (resolver shuffle_dataset).2,
    load_transform := load_transform,
    batch_size := batch_size,
    num_processes := num_processes }

/-- `train_dataloader` (training.py lines 121-134): build a fresh dataset
from the stored train paths and stored transform, then a loader with
shuffle=True. -/
def train_dataloader {T : Type} (st : ModuleState T) : DataLoaderCfg T :=
  create_data_loader
    { image_mask_paths := st.train_paths, load_transforms := st.load_transform }
    st.batch_size true st.num_processes

/-- `val_dataloader` (training.py lines 136-148): build a fresh dataset
from the stored validation paths and stored transform, then a loader with
shuffle=False. -/
def val_dataloader {T : Type} (st : ModuleState T) : DataLoaderCfg T :=
  create_data_loader
    { image_mask_paths := st.val_paths, load_transforms := st.load_transform }
    st.batch_size false st.num_processes

/-- C9: whatever the `shuffle_dataset` construction flag was, every call
of `train_dataloader` builds its loader with shuffling enabled and every
call of `val_dataloader` with shuffling disabled, and each call
constructs its dataset directly from the stored path lists and stored
transform (the module state holds no dataset to cache). -/
theorem dataloaders_shuffle_and_fresh_datasets {T : Type}
    (resolver : Bool → PathPairs × PathPairs) (shuffle_dataset : Bool)
    (load_transform : T) (batch_size num_processes : ℕ) :
    (train_dataloader (init_state resolver shuffle_dataset load_transform
        batch_size num_processes)).shuffle = true ∧
    (val_dataloader (init_state resolver shuffle_dataset load_transform
        batch_size num_processes)).shuffle = false ∧
    (train_dataloader (init_state resolver shuffle_dataset load_transform
        batch_size num_processes)).dataset
      = { image_mask_paths := (resolver shuffle_dataset).1,
          load_transforms := load_transform } ∧
    (val_dataloader (init_state resolver shuffle_dataset load_transform
        batch_size num_processes)).dataset
      = { image_mask_paths := (resolver shuffle_dataset).2,
          load_transforms := load_transform } :=
  ⟨rfl, rfl, rfl, rfl⟩

end BrainTumorSeg
